import Mathlib

/-!
Verification development for the document-summarization workflow engine
(Google Apps Script sources: `Utils.gs`, `Config.gs`, `NotionAPI.gs` and the
Properties-Service storage / webhook-callback module).

Modelling conventions for the shallow embedding:
* JavaScript strings are modelled as `List Char` where we reason about their
  contents (the chunker, storage payloads) and as Lean `String` where they
  are only used as opaque keys.
* JavaScript's `str.lastIndexOf(needle, from)` returns `-1` on a miss; we
  model the result as `Option Nat`.
* The fractional threshold `maxChunkSize * 0.7` in `chunkContent` is modelled
  exactly: the test `p > cur + m * 0.7` becomes `10 * p > 10 * cur + 7 * m`.
  IEEE-754 evaluation of `m * 0.7` can differ from the exact rational only
  when `p - cur` lands exactly on the threshold; no theorem below depends on
  a threshold-boundary input.
* Loops whose progress depends on run-time values are given explicit fuel
  (`content.length + 1`); sufficiency of the fuel is proved, not assumed.
-/

namespace ZapierCodes

/-- `CHUNK_SIZE` from `Config.gs`: default chunk size for `chunkContent`. -/
def CHUNK_SIZE : Nat := 15000

/-- Whether `needle` occurs at index `i` of `content`
(JS `content.startsWith(needle, i)` / a match position of `indexOf`). -/
def matchesAt (content needle : List Char) (i : Nat) : Bool :=
  needle.isPrefixOf (content.drop i)

/-- Downward scan of `lastIndexOf`: the largest `j ≤ i` with a match at `j`. -/
def lastIndexOfAux (content needle : List Char) : Nat → Option Nat
  | 0 => if matchesAt content needle 0 then some 0 else none
  | i + 1 =>
    if matchesAt content needle (i + 1) then some (i + 1)
    else lastIndexOfAux content needle i

/-- JS `content.lastIndexOf(needle, fromIndex)`, with `-1` rendered as
`none`.  The scan start is clamped to the length as in JS. -/
def jsLastIndexOf (content needle : List Char) (fromIndex : Nat) : Option Nat :=
  lastIndexOfAux content needle (min fromIndex content.length)

/-- JS `content.substring(start, finish)` for `start ≤ finish`
(all call sites in the embedded code satisfy this; JS would swap the
arguments otherwise). -/
def jsSubstring (content : List Char) (start finish : Nat) : List Char :=
  (content.drop start).take (finish - start)

/-- The 70%-utilization test `p > currentIndex + maxChunkSize * 0.7` from
`chunkContent` (`Utils.gs`), in exact rational form. -/
def chunkThreshold (cur m p : Nat) : Bool :=
  10 * p > 10 * cur + 7 * m

/-- One iteration of the `chunkContent` loop body (`Utils.gs` lines 224-236):
the chosen cut position `chunkEnd` for the chunk starting at `cur`.
(`cur + m` is the proposed cut `currentIndex + maxChunkSize`.) -/
def chunkEndAt (content : List Char) (m cur : Nat) : Nat :=
  if cur + m < content.length then
    match jsLastIndexOf content ['\n', '\n'] (cur + m) with
    | some p =>
      if chunkThreshold cur m p then p
      else
        match jsLastIndexOf content ['.', ' '] (cur + m) with
        | some q => if chunkThreshold cur m q then q + 1 else cur + m
        | none => cur + m
    | none =>
      match jsLastIndexOf content ['.', ' '] (cur + m) with
      | some q => if chunkThreshold cur m q then q + 1 else cur + m
      | none => cur + m
  else cur + m

/-- The `while (currentIndex < content.length)` loop of `chunkContent`,
with explicit fuel. -/
def chunkLoop (content : List Char) (m : Nat) : Nat → Nat → List (List Char)
  | 0, _ => []
  | fuel + 1, cur =>
    if cur < content.length then
      jsSubstring content cur (chunkEndAt content m cur) ::
        chunkLoop content m fuel (chunkEndAt content m cur)
    else []

/-- `chunkContent(content, maxChunkSize)` from `Utils.gs` lines 207-243,
restricted to string inputs (the non-string guard returns `[]` before this
point).  Fuel `content.length + 1` is enough for any `maxChunkSize ≥ 1`
(proved in `chunkLoop_join`). -/
def chunkContent (content : List Char) (m : Nat) : List (List Char) :=
  if content.length ≤ m then [content]
  else chunkLoop content m (content.length + 1) 0

/-! Basic facts about the `lastIndexOf` model. -/

theorem lastIndexOfAux_of_matches {c nd : List Char} {i : Nat}
    (h : matchesAt c nd i = true) : lastIndexOfAux c nd i = some i := by
  cases i <;> simp [lastIndexOfAux, h]

theorem lastIndexOfAux_of_no_match {c nd : List Char} :
    ∀ i : Nat, (∀ q, q ≤ i → matchesAt c nd q = false) →
      lastIndexOfAux c nd i = none := by
  intro i
  induction i with
  | zero => intro h; simp [lastIndexOfAux, h 0 (Nat.le_refl 0)]
  | succ n ih =>
    intro h
    simp only [lastIndexOfAux, h (n + 1) (Nat.le_refl _)]
    simpa using ih fun q hq => h q (Nat.le_succ_of_le hq)

theorem lastIndexOfAux_skip {c nd : List Char} {j : Nat} :
    ∀ i : Nat, j ≤ i → (∀ q, j < q → q ≤ i → matchesAt c nd q = false) →
      lastIndexOfAux c nd i = lastIndexOfAux c nd j := by
  intro i
  induction i with
  | zero =>
    intro hj _
    have hj0 : j = 0 := by omega
    rw [hj0]
  | succ n ih =>
    intro hj h
    rcases Nat.eq_or_lt_of_le hj with heq | hlt
    · rw [heq]
    · have hjn : j ≤ n := by omega
      have hm : matchesAt c nd (n + 1) = false := h (n + 1) (by omega) (Nat.le_refl _)
      simp only [lastIndexOfAux, hm]
      simpa using ih hjn fun q hq hq' => h q hq (Nat.le_succ_of_le hq')

/-! Progress and the concatenation invariant of the chunk loop. -/

theorem chunkEndAt_gt {content : List Char} {m cur : Nat} (hm : 1 ≤ m) :
    cur < chunkEndAt content m cur := by
  unfold chunkEndAt
  split
  · split
    · rename_i p _
      split
      · rename_i ht
        unfold chunkThreshold at ht
        simp only [decide_eq_true_eq] at ht
        omega
      · split
        · rename_i q _
          split
          · rename_i ht
            unfold chunkThreshold at ht
            simp only [decide_eq_true_eq] at ht
            omega
          · omega
        · omega
    · split
      · rename_i q _
        split
        · rename_i ht
          unfold chunkThreshold at ht
          simp only [decide_eq_true_eq] at ht
          omega
        · omega
      · omega
  · omega

theorem chunkLoop_join {content : List Char} {m : Nat} (hm : 1 ≤ m) :
    ∀ fuel cur, content.length ≤ cur + fuel →
      (chunkLoop content m fuel cur).flatten = content.drop cur := by
  intro fuel
  induction fuel with
  | zero =>
    intro cur hcur
    simp only [chunkLoop, List.flatten]
    exact (List.drop_eq_nil_of_le (by omega)).symm
  | succ f ih =>
    intro cur hcur
    simp only [chunkLoop]
    split
    · rename_i hlt
      have hce : cur < chunkEndAt content m cur := chunkEndAt_gt hm
      have hrec := ih (chunkEndAt content m cur) (by omega)
      simp only [List.flatten_cons, hrec, jsSubstring]
      have h1 : (content.drop cur).drop (chunkEndAt content m cur - cur)
          = content.drop (chunkEndAt content m cur) := by
        rw [List.drop_drop]
        congr 1
        omega
      calc ((content.drop cur).take (chunkEndAt content m cur - cur))
            ++ content.drop (chunkEndAt content m cur)
          = ((content.drop cur).take (chunkEndAt content m cur - cur))
            ++ ((content.drop cur).drop (chunkEndAt content m cur - cur)) := by
            rw [h1]
        _ = content.drop cur := List.take_append_drop _ _
    · rename_i hge
      simp only [List.flatten]
      exact (List.drop_eq_nil_of_le (by omega)).symm

/-- Claim C6: for every string `content` and every positive `maxChunkSize`,
the concatenation of the chunks returned by `chunkContent` equals the input
exactly. -/
theorem chunkContent_join (content : List Char) (m : Nat) (hm : 1 ≤ m) :
    (chunkContent content m).flatten = content := by
  unfold chunkContent
  split
  · simp
  · simpa using chunkLoop_join hm (content.length + 1) 0 (by omega)

/-- Witness for C6 at a concrete input. -/
theorem chunkContent_join_witness :
    1 ≤ 4 ∧ (chunkContent "hello. world, again".data 4).flatten
      = "hello. world, again".data :=
  ⟨by norm_num, chunkContent_join "hello. world, again".data 4 (by norm_num)⟩

/-! Evaluation of the chunker on structured inputs (scenario B). -/

theorem chunkLoop_succ (c : List Char) (m f cur : Nat) :
    chunkLoop c m (f + 1) cur
      = if cur < c.length then
          jsSubstring c cur (chunkEndAt c m cur) ::
            chunkLoop c m f (chunkEndAt c m cur)
        else [] := rfl

theorem matchesAt_false_of_ne {s : List Char} {x : Char} {xs : List Char}
    {q : Nat} (h : s[q]? ≠ some x) : matchesAt s (x :: xs) q = false := by
  unfold matchesAt
  cases hd : s.drop q with
  | nil => simp [List.isPrefixOf]
  | cons y ys =>
    have hy : s[q]? = some y := by
      rw [← List.head?_drop, hd]; rfl
    have hne : ¬ (x = y) := fun hxy => h (by rw [hy, hxy])
    simp [List.isPrefixOf, hne]

theorem matchesAt_replicate_false {n q : Nat} {x : Char} {xs : List Char}
    (hx : x ≠ 'a') : matchesAt (List.replicate n 'a') (x :: xs) q = false := by
  apply matchesAt_false_of_ne
  rw [List.getElem?_replicate]
  split
  · intro hcontra
    exact hx (Option.some.inj hcontra).symm
  · simp

theorem jsLastIndexOf_replicate_none {n f : Nat} {x : Char} {xs : List Char}
    (hx : x ≠ 'a') : jsLastIndexOf (List.replicate n 'a') (x :: xs) f = none := by
  unfold jsLastIndexOf
  exact lastIndexOfAux_of_no_match _ fun q _ => matchesAt_replicate_false hx

theorem chunkEndAt_replicate (n m cur : Nat) :
    chunkEndAt (List.replicate n 'a') m cur = cur + m := by
  unfold chunkEndAt
  rw [jsLastIndexOf_replicate_none (by decide : ('\n' : Char) ≠ 'a'),
    jsLastIndexOf_replicate_none (by decide : ('.' : Char) ≠ 'a')]
  split <;> rfl

theorem chunkLoop_replicate_succ (f cur : Nat) :
    chunkLoop (List.replicate 40000 'a') 15000 (f + 1) cur
      = if cur < 40000 then
          List.replicate (min 15000 (40000 - cur)) 'a' ::
            chunkLoop (List.replicate 40000 'a') 15000 f (cur + 15000)
        else [] := by
  rw [chunkLoop_succ, chunkEndAt_replicate, List.length_replicate]
  have hsub : jsSubstring (List.replicate 40000 'a') cur (cur + 15000)
      = List.replicate (min 15000 (40000 - cur)) 'a' := by
    unfold jsSubstring
    rw [List.drop_replicate, List.take_replicate, Nat.add_sub_cancel_left]
  rw [hsub]

theorem chunkContent_uniform40000 :
    chunkContent (List.replicate 40000 'a') 15000
      = [List.replicate 15000 'a', List.replicate 15000 'a',
         List.replicate 10000 'a'] := by
  unfold chunkContent
  rw [List.length_replicate, if_neg (by norm_num)]
  rw [chunkLoop_replicate_succ, if_pos (by norm_num)]
  rw [show (40000 : Nat) = 39999 + 1 from by norm_num, chunkLoop_replicate_succ,
    if_pos (by norm_num)]
  rw [show (39999 : Nat) = 39998 + 1 from by norm_num, chunkLoop_replicate_succ,
    if_pos (by norm_num)]
  rw [show (39998 : Nat) = 39997 + 1 from by norm_num, chunkLoop_replicate_succ,
    if_neg (by norm_num)]
  norm_num

/-- Claim C7 (amended): for a 40,000-character text containing no paragraph
break and no sentence break (uniform text), `chunkContent` with
`maxChunkSize = 15000` returns exactly 3 chunks, their concatenation equals
the input, and every chunk is at most 15,000 characters.  (The original
claim, for arbitrary 40,000-character texts, is refuted by
`chunkContent_scenarioB_cex`: a `". "` straddling the proposed cut produces
a 15,001-character chunk.) -/
theorem chunkContent_scenarioB_uniform :
    (chunkContent (List.replicate 40000 'a') 15000).length = 3 ∧
    (chunkContent (List.replicate 40000 'a') 15000).flatten
      = List.replicate 40000 'a' ∧
    ∀ c ∈ chunkContent (List.replicate 40000 'a') 15000, c.length ≤ 15000 := by
  rw [chunkContent_uniform40000]
  refine ⟨rfl, ?_, ?_⟩
  · rw [show (40000 : Nat) = 15000 + (15000 + 10000) from by norm_num,
      List.replicate_add, List.replicate_add]
    simp only [List.flatten_cons, List.flatten_nil, List.append_nil]
  · intro ch hch
    simp only [List.mem_cons, List.not_mem_nil, or_false] at hch
    rcases hch with h | h | h <;> subst h <;>
      rw [List.length_replicate] <;> norm_num

/-- A 40,000-character document with a single `". "` at offset 15,000:
the sentence-break search finds it exactly at the proposed cut, and the
`sentenceBreak + 1` adjustment produces a 15,001-character first chunk. -/
def cexDoc : List Char :=
  List.replicate 15000 'a' ++ '.' :: ' ' :: List.replicate 24998 'a'

theorem cexDoc_length : cexDoc.length = 40000 := by
  unfold cexDoc
  rw [List.length_append, List.length_replicate, List.length_cons,
    List.length_cons, List.length_replicate]

theorem cexDoc_getElem (q : Nat) :
    cexDoc[q]? = if q < 15000 then some 'a'
      else if q = 15000 then some '.'
      else if q = 15001 then some ' '
      else if q < 40000 then some 'a' else none := by
  unfold cexDoc
  rw [List.getElem?_append, List.length_replicate]
  by_cases h1 : q < 15000
  · rw [if_pos h1, if_pos h1, List.getElem?_replicate, if_pos h1]
  · rw [if_neg h1, if_neg h1]
    by_cases h2 : q = 15000
    · subst h2
      rw [if_pos rfl, Nat.sub_self, List.getElem?_cons_zero]
    · rw [if_neg h2]
      by_cases h3 : q = 15001
      · subst h3
        rw [if_pos rfl, show (15001 - 15000 : Nat) = 0 + 1 from by norm_num,
          List.getElem?_cons_succ, List.getElem?_cons_zero]
      · rw [if_neg h3]
        have hq : q - 15000 = (q - 15002) + 1 + 1 := by omega
        rw [hq, List.getElem?_cons_succ, List.getElem?_cons_succ,
          List.getElem?_replicate]
        by_cases h4 : q < 40000
        · rw [if_pos (by omega : q - 15002 < 24998), if_pos h4]
        · rw [if_neg (by omega : ¬ q - 15002 < 24998), if_neg h4]

theorem cexDoc_no_newline (q : Nat) :
    matchesAt cexDoc ['\n', '\n'] q = false := by
  apply matchesAt_false_of_ne
  rw [cexDoc_getElem]
  split_ifs <;> decide

theorem cexDoc_sentence_only (q : Nat) (hq : q ≠ 15000) :
    matchesAt cexDoc ['.', ' '] q = false := by
  apply matchesAt_false_of_ne
  rw [cexDoc_getElem]
  split_ifs <;> first | decide | (exact absurd (by assumption) hq)

theorem cexDoc_sentence_at : matchesAt cexDoc ['.', ' '] 15000 = true := by
  have hdrop := List.drop_left (List.replicate 15000 'a')
    ('.' :: ' ' :: List.replicate 24998 'a')
  rw [List.length_replicate] at hdrop
  unfold matchesAt cexDoc
  rw [hdrop]
  rfl

theorem chunkEndAt_cexDoc : chunkEndAt cexDoc 15000 0 = 15001 := by
  have hpar : jsLastIndexOf cexDoc ['\n', '\n'] (0 + 15000) = none := by
    unfold jsLastIndexOf
    exact lastIndexOfAux_of_no_match _ fun q _ => cexDoc_no_newline q
  have hsent : jsLastIndexOf cexDoc ['.', ' '] (0 + 15000) = some 15000 := by
    unfold jsLastIndexOf
    rw [cexDoc_length, show min (0 + 15000) 40000 = 15000 from by norm_num]
    exact lastIndexOfAux_of_matches cexDoc_sentence_at
  unfold chunkEndAt
  rw [cexDoc_length, hpar, hsent]
  rfl

/-- Claim C7 counterexample: the document `cexDoc` has exactly 40,000
characters, yet `chunkContent` with `maxChunkSize = 15000` produces a chunk
of 15,001 characters, refuting "every chunk is at most 15,000 characters
long".  (When `". "` occurs exactly at the proposed cut position,
`lastIndexOf` returns the cut itself and `chunkEnd = sentenceBreak + 1`
exceeds `maxChunkSize` by one.) -/
theorem chunkContent_scenarioB_cex :
    cexDoc.length = 40000 ∧
    ∃ c ∈ chunkContent cexDoc 15000, 15000 < c.length := by
  refine ⟨cexDoc_length, jsSubstring cexDoc 0 15001, ?_, ?_⟩
  · unfold chunkContent
    rw [cexDoc_length, if_neg (by norm_num), chunkLoop_succ,
      chunkEndAt_cexDoc, if_pos (by rw [cexDoc_length]; norm_num)]
    exact List.mem_cons_self _ _
  · have hlen : (jsSubstring cexDoc 0 15001).length = 15001 := by
      unfold jsSubstring
      rw [List.drop_zero, List.length_take, cexDoc_length]
      norm_num
    rw [hlen]
    norm_num

/-!
The Properties-Service storage layer (`saveToStorage`, `loadFromStorage`,
`deleteFromStorage`, `autoCleanupIfNeeded`, `cleanupOldStorageEntries` and
`STORAGE_CONFIG` from `Config.gs`).

The store is modelled as an association list from property keys to slot
values.  A slot value is the parse of the stored JSON string: a single-slot
entry `{content, metadata}`, a raw chunk string, a chunk metadata record
`{metadata}`, a workflow-state record (only its `taskId` field is relevant
to the embedded code), or a `ZAPIER_RESULT_` record.  `JSON.parse` composed
with `JSON.stringify` is the identity on these shapes, so serialization is
not modelled separately.  Timestamps are abstract `Nat` instants threaded
through as a `now` parameter.
-/

/-- JS `s.startsWith(p)`. -/
def jsStartsWith (s p : String) : Bool := p.data.isPrefixOf s.data

/-- JS `s.endsWith(p)`. -/
def jsEndsWith (s p : String) : Bool := p.data.isSuffixOf s.data

/-- Substring occurrence test over char lists (JS `includes`). -/
def listInfixCheck (nd : List Char) : List Char → Bool
  | [] => nd.isEmpty
  | x :: rest => nd.isPrefixOf (x :: rest) || listInfixCheck nd rest

/-- JS `s.includes(sub)`. -/
def strIncludes (s sub : String) : Bool := listInfixCheck sub.data s.data

/-! Decimal `Nat.repr` is injective (needed because chunk-slot keys embed
the chunk index in decimal). -/

theorem toDigitsCore_zero (b n : Nat) (ds : List Char) :
    Nat.toDigitsCore b 0 n ds = ds := rfl

theorem toDigitsCore_succ (b f n : Nat) (ds : List Char) :
    Nat.toDigitsCore b (f + 1) n ds
      = if n / b = 0 then (n % b).digitChar :: ds
        else Nat.toDigitsCore b f (n / b) ((n % b).digitChar :: ds) := rfl

theorem toDigitsCore_shift :
    ∀ (f n : Nat) (ds : List Char),
      Nat.toDigitsCore 10 f n ds = Nat.toDigitsCore 10 f n [] ++ ds := by
  intro f
  induction f with
  | zero => intro n ds; rw [toDigitsCore_zero, toDigitsCore_zero]; rfl
  | succ g ih =>
    intro n ds
    rw [toDigitsCore_succ, toDigitsCore_succ]
    split
    · rfl
    · rw [ih (n / 10) ((n % 10).digitChar :: ds),
        ih (n / 10) [(n % 10).digitChar], List.append_assoc]
      rfl

/-- Value of a decimal digit string, most significant first. -/
def digitsVal (ds : List Char) : Nat :=
  ds.foldl (fun a ch => 10 * a + (ch.toNat - 48)) 0

theorem digitsVal_append_one (ds : List Char) (ch : Char) :
    digitsVal (ds ++ [ch]) = 10 * digitsVal ds + (ch.toNat - 48) := by
  unfold digitsVal
  rw [List.foldl_append]
  rfl

theorem digitChar_val {r : Nat} (hr : r < 10) :
    (Nat.digitChar r).toNat - 48 = r := by
  interval_cases r <;> decide

theorem toDigitsCore_val :
    ∀ f n : Nat, n < f → digitsVal (Nat.toDigitsCore 10 f n []) = n := by
  intro f
  induction f with
  | zero => intro n hn; omega
  | succ g ih =>
    intro n hn
    rw [toDigitsCore_succ]
    split
    · rename_i hdiv
      have hmod : n % 10 = n := by omega
      show digitsVal [(n % 10).digitChar] = n
      have : digitsVal [(n % 10).digitChar]
          = 10 * digitsVal [] + ((n % 10).digitChar.toNat - 48) := by
        rw [← digitsVal_append_one]; rfl
      rw [this, digitChar_val (Nat.mod_lt _ (by norm_num))]
      unfold digitsVal
      simp [hmod]
    · rename_i hdiv
      rw [toDigitsCore_shift, digitsVal_append_one,
        ih (n / 10) (by omega), digitChar_val (Nat.mod_lt _ (by norm_num))]
      omega

theorem natRepr_injective : Function.Injective Nat.repr := by
  intro m n h
  have hdig : Nat.toDigits 10 m = Nat.toDigits 10 n := by
    have := congrArg String.data h
    simpa [Nat.repr, List.asString] using this
  have hm := toDigitsCore_val (m + 1) m (by omega)
  have hn := toDigitsCore_val (n + 1) n (by omega)
  unfold Nat.toDigits at hdig
  rw [hdig, hn] at hm
  omega

/-! Derived storage keys (`STORAGE_${path}`, `STORAGE_${path}_CHUNK_${i}`,
`STORAGE_${path}_META`) and their pairwise distinctness. -/

/-- Single-slot key `STORAGE_${path}`. -/
def storageKey (path : String) : String := "STORAGE_" ++ path

/-- Chunk-slot key `STORAGE_${path}_CHUNK_${i}`. -/
def storageChunkKey (path : String) (i : Nat) : String :=
  "STORAGE_" ++ path ++ "_CHUNK_" ++ Nat.repr i

/-- Metadata key `STORAGE_${path}_META`. -/
def storageMetaKey (path : String) : String := "STORAGE_" ++ path ++ "_META"

theorem string_ext {s t : String} (h : s.data = t.data) : s = t := by
  cases s; cases t; exact congrArg String.mk h

theorem storageKey_ne_chunkKey (path : String) (i : Nat) :
    storageKey path ≠ storageChunkKey path i := by
  intro h
  have hlen := congrArg (fun s : String => s.data.length) h
  simp only [storageKey, storageChunkKey, String.data_append,
    List.length_append] at hlen
  rw [show ("STORAGE_" : String).data.length = 8 from rfl,
    show ("_CHUNK_" : String).data.length = 7 from rfl] at hlen
  omega

theorem storageKey_ne_metaKey (path : String) :
    storageKey path ≠ storageMetaKey path := by
  intro h
  have hlen := congrArg (fun s : String => s.data.length) h
  simp only [storageKey, storageMetaKey, String.data_append,
    List.length_append] at hlen
  rw [show ("STORAGE_" : String).data.length = 8 from rfl,
    show ("_META" : String).data.length = 5 from rfl] at hlen
  omega

theorem metaKey_ne_chunkKey (path : String) (i : Nat) :
    storageMetaKey path ≠ storageChunkKey path i := by
  intro h
  have hlen := congrArg (fun s : String => s.data.length) h
  simp only [storageMetaKey, storageChunkKey, String.data_append,
    List.length_append] at hlen
  rw [show ("STORAGE_" : String).data.length = 8 from rfl,
    show ("_CHUNK_" : String).data.length = 7 from rfl,
    show ("_META" : String).data.length = 5 from rfl] at hlen
  omega

theorem chunkKey_injective (path : String) {i j : Nat} (hij : i ≠ j) :
    storageChunkKey path i ≠ storageChunkKey path j := by
  intro h
  have hd := congrArg String.data h
  simp only [storageChunkKey, String.data_append] at hd
  exact hij (natRepr_injective (string_ext (List.append_cancel_left hd)))

/-! The property store and its primitive operations. -/

/-- Chunk/entry metadata (the `metadata` object written by `saveToStorage`;
caller-supplied extra fields are not needed by any theorem and are
omitted). -/
structure StoreMeta where
  timestamp : Nat
  size : Nat
  chunked : Bool
  chunkCount : Option Nat
deriving DecidableEq

/-- Parse of a stored property value (see the section comment). -/
inductive SlotVal where
  | single (content : List Char) (md : StoreMeta)
  | chunkPart (content : List Char)
  | metaRec (md : StoreMeta)
  | wfState (taskId : String)
  | zapRes (result : List Char)
deriving DecidableEq

/-- The Properties-Service script-property store, in insertion order. -/
abbrev Store := List (String × SlotVal)

/-- `scriptProperties.getProperty(key)`. -/
def getProperty : Store → String → Option SlotVal
  | [], _ => none
  | (k, v) :: rest, key => if k = key then some v else getProperty rest key

/-- `scriptProperties.setProperty(key, v)`: replace in place or append. -/
def setProperty : Store → String → SlotVal → Store
  | [], key, v => [(key, v)]
  | (k, w) :: rest, key, v =>
    if k = key then (k, v) :: rest else (k, w) :: setProperty rest key v

/-- `scriptProperties.deleteProperty(key)`. -/
def deleteProperty : Store → String → Store
  | [], _ => []
  | (k, w) :: rest, key =>
    if k = key then deleteProperty rest key
    else (k, w) :: deleteProperty rest key

theorem getProperty_set_self (s : Store) (key : String) (v : SlotVal) :
    getProperty (setProperty s key v) key = some v := by
  induction s with
  | nil => simp [setProperty, getProperty]
  | cons kv rest ih =>
    obtain ⟨k, w⟩ := kv
    by_cases hk : k = key
    · simp [setProperty, hk, getProperty]
    · simp [setProperty, hk, getProperty, ih]

theorem getProperty_set_ne (s : Store) {key kset : String} (v : SlotVal)
    (h : key ≠ kset) :
    getProperty (setProperty s kset v) key = getProperty s key := by
  have hne : ¬ (kset = key) := fun hh => h hh.symm
  induction s with
  | nil =>
    simp only [setProperty, getProperty]
    rw [if_neg hne]
  | cons kv rest ih =>
    obtain ⟨k, w⟩ := kv
    by_cases hk : k = kset
    · subst hk
      simp only [setProperty, if_pos rfl, getProperty]
      rw [if_neg hne, if_neg hne]
    · simp only [setProperty, if_neg hk, getProperty]
      by_cases hkey : k = key
      · rw [if_pos hkey, if_pos hkey]
      · rw [if_neg hkey, if_neg hkey, ih]

theorem getProperty_delete (s : Store) (key kdel : String) :
    getProperty (deleteProperty s kdel) key
      = if key = kdel then none else getProperty s key := by
  induction s with
  | nil => simp [deleteProperty, getProperty]
  | cons kv rest ih =>
    obtain ⟨k, w⟩ := kv
    by_cases hk : k = kdel
    · subst hk
      rw [deleteProperty, if_pos rfl, ih]
      by_cases hkey : key = k
      · rw [if_pos hkey, if_pos hkey]
      · rw [if_neg hkey, if_neg hkey, getProperty,
          if_neg (fun hh => hkey hh.symm)]
    · rw [deleteProperty, if_neg hk, getProperty]
      by_cases hkk : k = key
      · have hkd : ¬ (key = kdel) := fun hh => hk (hkk.trans hh)
        rw [if_pos hkk, if_neg hkd, getProperty, if_pos hkk]
      · rw [if_neg hkk, ih]
        by_cases hkd : key = kdel
        · rw [if_pos hkd, if_pos hkd]
        · rw [if_neg hkd, if_neg hkd, getProperty, if_neg hkk]

/-! The storage API itself. -/

/-- `STORAGE_CONFIG` from `Config.gs` (lines 51-66; the file-path fields are
not used by the embedded functions). -/
structure StorageConfig where
  maxChunkSize : Nat
  maxTotalSize : Nat
  autoCleanup : Bool
  maxAge : Nat
  maxEntries : Nat

def STORAGE_CONFIG : StorageConfig :=
  { maxChunkSize := 450000
    maxTotalSize := 8000000
    autoCleanup := true
    maxAge := 24
    maxEntries := 50 }

/-- The chunk-splitting loop of `saveToStorage`
(`for (i = 0; i < content.length; i += maxChunkSize)`), with fuel. -/
def splitChunksAux (content : List Char) (m : Nat) : Nat → Nat → List (List Char)
  | 0, _ => []
  | fuel + 1, i =>
    if i < content.length then
      (content.drop i).take m :: splitChunksAux content m fuel (i + m)
    else []

def splitChunks (content : List Char) (m : Nat) : List (List Char) :=
  splitChunksAux content m (content.length + 1) 0

/-- `chunks.forEach((chunk, index) => setProperty(chunkKey(index), chunk))`. -/
def writeChunks (path : String) : Store → List (List Char) → Nat → Store
  | s, [], _ => s
  | s, ch :: rest, i =>
    writeChunks path (setProperty s (storageChunkKey path i) (SlotVal.chunkPart ch))
      rest (i + 1)

/-- Contribution of one chunk slot to the reassembled payload: a present
chunk is appended, a missing chunk is logged and skipped (`loadFromStorage`
lines 129-136).  A non-chunk slot value under a chunk key never occurs
through this API; it is skipped like a missing slot. -/
def chunkSlotContent : Option SlotVal → List Char
  | some (SlotVal.chunkPart ch) => ch
  | _ => []

/-- The chunk-reassembly loop of `loadFromStorage`. -/
def readChunksAux (s : Store) (path : String) : Nat → Nat → List Char
  | 0, _ => []
  | k + 1, i =>
    chunkSlotContent (getProperty s (storageChunkKey path i))
      ++ readChunksAux s path k (i + 1)

def readChunks (s : Store) (path : String) (count : Nat) : List Char :=
  readChunksAux s path count 0

/-- The chunk-deletion loop of `deleteFromStorage` (lines 180-182). -/
def deleteChunkKeys (path : String) : Store → Nat → Nat → Store
  | s, 0, _ => s
  | s, k + 1, i =>
    deleteChunkKeys path (deleteProperty s (storageChunkKey path i)) k (i + 1)

/-- `deleteFromStorage(path)` (lines 163-211).  A value without a parseable
`metadata.chunkCount` access path (raw chunk: `JSON.parse` throws; workflow
or polling record: `metadata` is undefined and the member access throws)
lands in the `catch`, which only logs, so the metadata key survives. -/
def deleteFromStorage (s : Store) (path : String) : Store :=
  match getProperty (deleteProperty s (storageKey path)) (storageMetaKey path) with
  | some (SlotVal.metaRec md) =>
    deleteProperty
      (deleteChunkKeys path (deleteProperty s (storageKey path))
        (md.chunkCount.getD 0) 0)
      (storageMetaKey path)
  | some (SlotVal.single _ md) =>
    deleteProperty
      (deleteChunkKeys path (deleteProperty s (storageKey path))
        (md.chunkCount.getD 0) 0)
      (storageMetaKey path)
  | some _ => deleteProperty s (storageKey path)
  | none => deleteProperty s (storageKey path)

/-- The storage-entry filter used by the cleanup paths
(`key.startsWith('STORAGE_') && !key.includes('_CHUNK_')
&& !key.endsWith('_META')`). -/
def isStorageEntryKey (key : String) : Bool :=
  jsStartsWith key "STORAGE_" && !(strIncludes key "_CHUNK_")
    && !(jsEndsWith key "_META")

/-- `cleanupOldStorageEntries(olderThanHours)` (lines 293-344): from a
snapshot of the store, entry keys whose parsed `metadata.timestamp` is older
than the cutoff — or whose value fails to parse (raw chunk string) — are
collected and deleted via `deleteFromStorage`; records that parse but carry
no `metadata.timestamp` are skipped. -/
def cleanupOldStorageEntries (now olderThanHours : Nat) (s : Store) : Store :=
  let cutoff := now - olderThanHours * 3600000
  let toClean := s.filter fun kv =>
    isStorageEntryKey kv.1 &&
      (match kv.2 with
       | SlotVal.single _ md => decide (md.timestamp < cutoff)
       | SlotVal.metaRec md => decide (md.timestamp < cutoff)
       | SlotVal.chunkPart _ => true
       | _ => false)
  (toClean.map fun kv => kv.1.replace "STORAGE_" "").foldl deleteFromStorage s

/-- `autoCleanupIfNeeded()` (lines 270-290): count-triggered, age-based. -/
def autoCleanupIfNeeded (now : Nat) (s : Store) : Store :=
  if (s.filter fun kv => isStorageEntryKey kv.1).length > STORAGE_CONFIG.maxEntries
  then cleanupOldStorageEntries now STORAGE_CONFIG.maxAge s
  else s

/-- The result object of `saveToStorage`. -/
structure SaveResult where
  success : Bool
  path : String
  size : Nat
  chunked : Bool
  chunkCount : Option Nat
deriving DecidableEq

/-- The `if (STORAGE_CONFIG.autoCleanup) autoCleanupIfNeeded()` step that
`saveToStorage` runs before writing. -/
def preCleanStore (now : Nat) (s : Store) : Store :=
  if STORAGE_CONFIG.autoCleanup then autoCleanupIfNeeded now s else s

/-- `saveToStorage(path, data)` (lines 8-97), for string data.  The cleanup
step is pure, so hoisting it into both branches of the size test preserves
the JS order (cleanup, then size test, then writes).  The model has no
platform faults, so the `catch` branch (`success: false`) is unreachable;
nothing in the function's own logic produces a failure. -/
def saveToStorage (now : Nat) (s : Store) (path : String) (data : List Char) :
    SaveResult × Store :=
  if data.length ≤ STORAGE_CONFIG.maxChunkSize then
    ({ success := true, path := path, size := data.length,
       chunked := false, chunkCount := none },
     setProperty (preCleanStore now s) (storageKey path)
       (SlotVal.single data
         { timestamp := now, size := data.length, chunked := false,
           chunkCount := none }))
  else
    ({ success := true, path := path, size := data.length,
       chunked := true,
       chunkCount := some (splitChunks data STORAGE_CONFIG.maxChunkSize).length },
     setProperty
       (writeChunks path (preCleanStore now s)
         (splitChunks data STORAGE_CONFIG.maxChunkSize) 0)
       (storageMetaKey path)
       (SlotVal.metaRec
         { timestamp := now, size := data.length, chunked := true,
           chunkCount := some (splitChunks data STORAGE_CONFIG.maxChunkSize).length }))

/-- `loadFromStorage(path)` (lines 100-160).  The single-slot key is probed
first; a hit that is not a `{content, metadata}` record would throw inside
`JSON.parse`/field access and be caught, returning `null`.  On a miss the
metadata key is probed and `chunkCount` slots are reassembled
(`chunkCount` undefined reads as zero iterations). -/
def loadFromStorage (s : Store) (path : String) : Option (List Char × StoreMeta) :=
  match getProperty s (storageKey path) with
  | some (SlotVal.single content md) => some (content, md)
  | some _ => none
  | none =>
    match getProperty s (storageMetaKey path) with
    | some (SlotVal.metaRec md) =>
      some (readChunks s path (md.chunkCount.getD 0), md)
    | _ => none

/-! Cleanup passes only ever delete properties. -/

/-- `s2` differs from `s` only by absent keys. -/
def onlyDeletes (s s2 : Store) : Prop :=
  ∀ key, getProperty s2 key = getProperty s key ∨ getProperty s2 key = none

theorem onlyDeletes_refl (s : Store) : onlyDeletes s s := fun _ => Or.inl rfl

theorem onlyDeletes_trans {a b c : Store}
    (h1 : onlyDeletes a b) (h2 : onlyDeletes b c) : onlyDeletes a c := by
  intro key
  rcases h2 key with h | h
  · rcases h1 key with g | g
    · exact Or.inl (h.trans g)
    · exact Or.inr (h.trans g)
  · exact Or.inr h

theorem onlyDeletes_delete (s : Store) (k : String) :
    onlyDeletes s (deleteProperty s k) := by
  intro key
  rw [getProperty_delete]
  split
  · exact Or.inr rfl
  · exact Or.inl rfl

theorem onlyDeletes_deleteChunkKeys (path : String) :
    ∀ (n i : Nat) (s : Store), onlyDeletes s (deleteChunkKeys path s n i) := by
  intro n
  induction n with
  | zero => intro i s; exact onlyDeletes_refl s
  | succ k ih =>
    intro i s
    exact onlyDeletes_trans (onlyDeletes_delete s _) (ih (i + 1) _)

theorem onlyDeletes_deleteFromStorage (s : Store) (path : String) :
    onlyDeletes s (deleteFromStorage s path) := by
  unfold deleteFromStorage
  split
  · exact onlyDeletes_trans
      (onlyDeletes_trans (onlyDeletes_delete s _)
        (onlyDeletes_deleteChunkKeys path _ 0 _))
      (onlyDeletes_delete _ _)
  · exact onlyDeletes_trans
      (onlyDeletes_trans (onlyDeletes_delete s _)
        (onlyDeletes_deleteChunkKeys path _ 0 _))
      (onlyDeletes_delete _ _)
  · exact onlyDeletes_delete s _
  · exact onlyDeletes_delete s _

theorem onlyDeletes_foldl :
    ∀ (paths : List String) (s : Store),
      onlyDeletes s (paths.foldl deleteFromStorage s) := by
  intro paths
  induction paths with
  | nil => intro s; exact onlyDeletes_refl s
  | cons p ps ih =>
    intro s
    exact onlyDeletes_trans (onlyDeletes_deleteFromStorage s p)
      (ih (deleteFromStorage s p))

theorem onlyDeletes_cleanup (now hours : Nat) (s : Store) :
    onlyDeletes s (cleanupOldStorageEntries now hours s) :=
  onlyDeletes_foldl _ s

theorem onlyDeletes_autoCleanup (now : Nat) (s : Store) :
    onlyDeletes s (autoCleanupIfNeeded now s) := by
  unfold autoCleanupIfNeeded
  split
  · exact onlyDeletes_cleanup now _ s
  · exact onlyDeletes_refl s

theorem onlyDeletes_preClean (now : Nat) (s : Store) :
    onlyDeletes s (preCleanStore now s) :=
  onlyDeletes_autoCleanup now s

theorem getProperty_none_after {s s2 : Store} {key : String}
    (h : getProperty s key = none) (hd : onlyDeletes s s2) :
    getProperty s2 key = none := by
  rcases hd key with g | g
  · exact g.trans h
  · exact g

/-! Chunk write/read correctness. -/

theorem getProperty_writeChunks_ne (path : String) :
    ∀ (cs : List (List Char)) (s : Store) (i0 : Nat) (key : String),
      (∀ j, j < cs.length → key ≠ storageChunkKey path (i0 + j)) →
      getProperty (writeChunks path s cs i0) key = getProperty s key := by
  intro cs
  induction cs with
  | nil => intro s i0 key _; rfl
  | cons ch rest ih =>
    intro s i0 key h
    rw [writeChunks]
    rw [ih _ (i0 + 1) key fun j hj => by
      have hh := h (j + 1) (by simpa using Nat.succ_lt_succ hj)
      rwa [show i0 + (j + 1) = i0 + 1 + j from by omega] at hh]
    exact getProperty_set_ne _ _ (by simpa using h 0 (by simp))

theorem getProperty_writeChunks_get (path : String) :
    ∀ (cs : List (List Char)) (s : Store) (i0 j : Nat) (hj : j < cs.length),
      getProperty (writeChunks path s cs i0) (storageChunkKey path (i0 + j))
        = some (SlotVal.chunkPart (cs.get ⟨j, hj⟩)) := by
  intro cs
  induction cs with
  | nil => intro s i0 j hj; exact absurd hj (by simp)
  | cons ch rest ih =>
    intro s i0 j hj
    cases j with
    | zero =>
      rw [writeChunks]
      rw [getProperty_writeChunks_ne path rest _ (i0 + 1) _
        fun jj hjj => chunkKey_injective path (by omega)]
      rw [show i0 + 0 = i0 from rfl]
      exact getProperty_set_self _ _ _
    | succ jj =>
      rw [writeChunks]
      have hrec := ih (setProperty s (storageChunkKey path i0)
        (SlotVal.chunkPart ch)) (i0 + 1) jj
        (by rw [List.length_cons] at hj; omega)
      rw [show i0 + (jj + 1) = i0 + 1 + jj from by omega, hrec]
      rfl

theorem readChunksAux_spec (S : Store) (path : String) :
    ∀ (cs : List (List Char)) (i0 : Nat),
      (∀ j (hj : j < cs.length),
        getProperty S (storageChunkKey path (i0 + j))
          = some (SlotVal.chunkPart (cs.get ⟨j, hj⟩))) →
      readChunksAux S path cs.length i0 = cs.flatten := by
  intro cs
  induction cs with
  | nil => intro i0 _; rfl
  | cons ch rest ih =>
    intro i0 h
    have h0 : getProperty S (storageChunkKey path i0)
        = some (SlotVal.chunkPart ch) := by
      simpa using h 0 (by simp)
    rw [show (ch :: rest).length = rest.length + 1 from rfl, readChunksAux,
      h0]
    rw [ih (i0 + 1) fun j hj => by
      have hh := h (j + 1) (by simpa using Nat.succ_lt_succ hj)
      rwa [show i0 + (j + 1) = i0 + 1 + j from by omega] at hh]
    rw [List.flatten_cons]
    rfl

/-! Chunk splitting: concatenation identity and the two-chunk case. -/

theorem splitChunksAux_succ (content : List Char) (m f i : Nat) :
    splitChunksAux content m (f + 1) i
      = if i < content.length then
          (content.drop i).take m :: splitChunksAux content m f (i + m)
        else [] := rfl

theorem splitChunksAux_join {content : List Char} {m : Nat} (hm : 1 ≤ m) :
    ∀ fuel i, content.length ≤ i + fuel * m →
      (splitChunksAux content m fuel i).flatten = content.drop i := by
  intro fuel
  induction fuel with
  | zero =>
    intro i h
    simp only [splitChunksAux, List.flatten_nil]
    exact (List.drop_eq_nil_of_le (by omega)).symm
  | succ f ih =>
    intro i h
    rw [splitChunksAux_succ]
    split
    · rename_i hlt
      have hstep : (f + 1) * m = f * m + m := by ring
      rw [List.flatten_cons, ih (i + m) (by omega)]
      have h1 : (content.drop i).drop m = content.drop (i + m) := by
        rw [List.drop_drop]
        try (congr 1; omega)
      calc (content.drop i).take m ++ content.drop (i + m)
          = (content.drop i).take m ++ (content.drop i).drop m := by rw [h1]
        _ = content.drop i := List.take_append_drop _ _
    · rename_i hge
      simp only [List.flatten_nil]
      exact (List.drop_eq_nil_of_le (by omega)).symm

theorem splitChunks_flatten {m : Nat} (hm : 1 ≤ m) (content : List Char) :
    (splitChunks content m).flatten = content := by
  unfold splitChunks
  have hb : content.length + 1 ≤ (content.length + 1) * m := by
    calc content.length + 1 = (content.length + 1) * 1 := by ring
      _ ≤ (content.length + 1) * m := Nat.mul_le_mul_left _ hm
  rw [splitChunksAux_join hm (content.length + 1) 0 (by omega)]
  exact List.drop_zero content

theorem splitChunks_two {content : List Char} {m : Nat} (hm : 1 ≤ m)
    (h1 : m < content.length) (h2 : content.length ≤ 2 * m) :
    splitChunks content m = [content.take m, content.drop m] := by
  unfold splitChunks
  rw [show content.length + 1 = (content.length - 2) + 1 + 1 + 1 from by omega]
  rw [splitChunksAux_succ, if_pos (by omega)]
  rw [splitChunksAux_succ, if_pos (by omega : 0 + m < content.length)]
  rw [splitChunksAux_succ, if_neg (by omega : ¬ (0 + m + m < content.length))]
  rw [List.drop_zero, show (0 + m : Nat) = m from by omega]
  rw [List.take_all_of_le
    (show (content.drop m).length ≤ m by rw [List.length_drop]; omega)]

/-! Branch characterizations of `saveToStorage` and `loadFromStorage`. -/

theorem saveToStorage_snd_small (now : Nat) (s : Store) (path : String)
    (data : List Char) (hsmall : data.length ≤ STORAGE_CONFIG.maxChunkSize) :
    (saveToStorage now s path data).2
      = setProperty (preCleanStore now s) (storageKey path)
          (SlotVal.single data
            { timestamp := now, size := data.length, chunked := false,
              chunkCount := none }) := by
  unfold saveToStorage
  rw [if_pos hsmall]

theorem saveToStorage_snd_big (now : Nat) (s : Store) (path : String)
    (data : List Char) (hbig : ¬ data.length ≤ STORAGE_CONFIG.maxChunkSize) :
    (saveToStorage now s path data).2
      = setProperty
          (writeChunks path (preCleanStore now s)
            (splitChunks data STORAGE_CONFIG.maxChunkSize) 0)
          (storageMetaKey path)
          (SlotVal.metaRec
            { timestamp := now, size := data.length, chunked := true,
              chunkCount :=
                some (splitChunks data STORAGE_CONFIG.maxChunkSize).length }) := by
  unfold saveToStorage
  rw [if_neg hbig]

theorem saveToStorage_fst_success (now : Nat) (s : Store) (path : String)
    (data : List Char) : (saveToStorage now s path data).1.success = true := by
  unfold saveToStorage
  split <;> rfl

theorem saveToStorage_fst_chunkCount_big (now : Nat) (s : Store)
    (path : String) (data : List Char)
    (hbig : ¬ data.length ≤ STORAGE_CONFIG.maxChunkSize) :
    (saveToStorage now s path data).1.chunkCount
      = some (splitChunks data STORAGE_CONFIG.maxChunkSize).length := by
  unfold saveToStorage
  rw [if_neg hbig]

theorem loadFromStorage_of_single {s : Store} {path : String}
    {content : List Char} {md : StoreMeta}
    (h : getProperty s (storageKey path) = some (SlotVal.single content md)) :
    loadFromStorage s path = some (content, md) := by
  unfold loadFromStorage
  rw [h]

theorem loadFromStorage_of_chunkedMeta {s : Store} {path : String}
    {md : StoreMeta}
    (h1 : getProperty s (storageKey path) = none)
    (h2 : getProperty s (storageMetaKey path) = some (SlotVal.metaRec md)) :
    loadFromStorage s path
      = some (readChunks s path (md.chunkCount.getD 0), md) := by
  unfold loadFromStorage
  rw [h1, h2]

/-- Claim C3 (amended): for every key and every payload — including ones
larger than one slot — a `saveToStorage` followed by `loadFromStorage`
returns the payload byte-for-byte, **provided** the store holds no
pre-existing single-slot entry under that key (a fresh key, or one that held
only a chunked entry).  The original unconditional claim is refuted by
`saveToStorage_roundtrip_cex`: a chunked write does not remove a stale
single-slot entry, and `loadFromStorage` probes the single-slot key first.
Scenario E (600,000 bytes, two chunks) is covered by the witness. -/
theorem saveToStorage_roundtrip (now : Nat) (s : Store) (path : String)
    (data : List Char) (h : getProperty s (storageKey path) = none) :
    (loadFromStorage (saveToStorage now s path data).2 path).map Prod.fst
      = some data := by
  have hclean : getProperty (preCleanStore now s) (storageKey path) = none :=
    getProperty_none_after h (onlyDeletes_preClean now s)
  by_cases hsz : data.length ≤ STORAGE_CONFIG.maxChunkSize
  · rw [saveToStorage_snd_small now s path data hsz,
      loadFromStorage_of_single (getProperty_set_self _ _ _)]
    rfl
  · rw [saveToStorage_snd_big now s path data hsz]
    have h1 : getProperty
        (setProperty
          (writeChunks path (preCleanStore now s)
            (splitChunks data STORAGE_CONFIG.maxChunkSize) 0)
          (storageMetaKey path)
          (SlotVal.metaRec
            { timestamp := now, size := data.length, chunked := true,
              chunkCount :=
                some (splitChunks data STORAGE_CONFIG.maxChunkSize).length }))
        (storageKey path) = none := by
      rw [getProperty_set_ne _ _ (storageKey_ne_metaKey path),
        getProperty_writeChunks_ne path _ _ 0 _
          fun j _ => storageKey_ne_chunkKey path (0 + j)]
      exact hclean
    rw [loadFromStorage_of_chunkedMeta h1 (getProperty_set_self _ _ _)]
    have hrc : readChunks
        (setProperty
          (writeChunks path (preCleanStore now s)
            (splitChunks data STORAGE_CONFIG.maxChunkSize) 0)
          (storageMetaKey path)
          (SlotVal.metaRec
            { timestamp := now, size := data.length, chunked := true,
              chunkCount :=
                some (splitChunks data STORAGE_CONFIG.maxChunkSize).length }))
        path (splitChunks data STORAGE_CONFIG.maxChunkSize).length = data := by
      unfold readChunks
      rw [readChunksAux_spec _ path (splitChunks data STORAGE_CONFIG.maxChunkSize) 0
        fun j hj => by
          rw [getProperty_set_ne _ _ (Ne.symm (metaKey_ne_chunkKey path (0 + j)))]
          exact getProperty_writeChunks_get path _ _ 0 j hj]
      exact splitChunks_flatten (by decide) data
    rw [show (some (splitChunks data STORAGE_CONFIG.maxChunkSize).length).getD 0
      = (splitChunks data STORAGE_CONFIG.maxChunkSize).length from rfl, hrc]
    rfl

/-- Witness for C3 at scenario E: a 600,000-byte payload with the
450,000-byte slot ceiling is stored chunked with `chunkCount = 2` and read
back exactly. -/
theorem saveToStorage_roundtrip_witness :
    getProperty ([] : Store) (storageKey "k") = none ∧
    (loadFromStorage (saveToStorage 0 [] "k" (List.replicate 600000 'a')).2
        "k").map Prod.fst = some (List.replicate 600000 'a') ∧
    (saveToStorage 0 [] "k" (List.replicate 600000 'a')).1.chunkCount
      = some 2 := by
  refine ⟨rfl, saveToStorage_roundtrip 0 [] "k" _ rfl, ?_⟩
  have hbig : ¬ (List.replicate 600000 'a').length ≤ STORAGE_CONFIG.maxChunkSize := by
    rw [List.length_replicate]
    decide
  rw [saveToStorage_fst_chunkCount_big 0 [] "k" _ hbig]
  rw [splitChunks_two (by decide)
    (by rw [List.length_replicate]; decide)
    (by rw [List.length_replicate]; decide)]
  rfl

/-- A store holding a stale single-slot entry under key `k`. -/
def staleStore : Store :=
  [(storageKey "k",
    SlotVal.single "OLD".data
      { timestamp := 0, size := 3, chunked := false, chunkCount := none })]

/-- A payload one byte over the slot ceiling. -/
def bigPayload : List Char := List.replicate 450001 'a'

/-- Claim C3 counterexample: over a store with a stale single-slot entry at
key `k`, `saveToStorage` of an over-slot payload reports success, yet the
following `loadFromStorage` returns the stale three-byte payload, not the
one just written — the chunked write leaves the old single-slot entry in
place and the single-slot probe wins. -/
theorem saveToStorage_roundtrip_cex :
    (saveToStorage 1 staleStore "k" bigPayload).1.success = true ∧
    (loadFromStorage (saveToStorage 1 staleStore "k" bigPayload).2 "k").map
        Prod.fst = some "OLD".data ∧
    "OLD".data ≠ bigPayload := by
  refine ⟨saveToStorage_fst_success 1 staleStore "k" bigPayload, ?_, ?_⟩
  · have hbig : ¬ bigPayload.length ≤ STORAGE_CONFIG.maxChunkSize := by
      rw [bigPayload, List.length_replicate]
      decide
    rw [saveToStorage_snd_big 1 staleStore "k" bigPayload hbig]
    have hstale : getProperty
        (setProperty
          (writeChunks "k" (preCleanStore 1 staleStore)
            (splitChunks bigPayload STORAGE_CONFIG.maxChunkSize) 0)
          (storageMetaKey "k")
          (SlotVal.metaRec
            { timestamp := 1, size := bigPayload.length, chunked := true,
              chunkCount :=
                some (splitChunks bigPayload STORAGE_CONFIG.maxChunkSize).length }))
        (storageKey "k")
        = some (SlotVal.single "OLD".data
            { timestamp := 0, size := 3, chunked := false, chunkCount := none }) := by
      rw [getProperty_set_ne _ _ (storageKey_ne_metaKey "k"),
        getProperty_writeChunks_ne "k" _ _ 0 _
          fun j _ => storageKey_ne_chunkKey "k" (0 + j)]
      rfl
    rw [loadFromStorage_of_single hstale]
    rfl
  · intro hcontra
    have hlen := congrArg List.length hcontra
    rw [bigPayload, List.length_replicate,
      show ("OLD".data).length = 3 from rfl] at hlen
    omega

/-- Claim C4 (amended): when the single-slot probe misses and a chunk
metadata record is present, `loadFromStorage` always returns a payload — it
reassembles whatever chunk slots are present and skips absent ones; no
storage-integrity error is surfaced.  The original claim (missing slot ⇒
reconstruction error) is refuted by `loadFromStorage_missingChunk_cex`,
which exhibits a silently truncated read. -/
theorem loadFromStorage_chunked_total (s : Store) (path : String)
    (md : StoreMeta)
    (h1 : getProperty s (storageKey path) = none)
    (h2 : getProperty s (storageMetaKey path) = some (SlotVal.metaRec md)) :
    loadFromStorage s path
      = some (readChunks s path (md.chunkCount.getD 0), md) :=
  loadFromStorage_of_chunkedMeta h1 h2

/-- A chunked entry whose metadata records 2 slots of an original 5-byte
payload, with slot 1 absent. -/
def missingChunkStore : Store :=
  [(storageMetaKey "k2",
    SlotVal.metaRec { timestamp := 0, size := 5, chunked := true,
                      chunkCount := some 2 }),
   (storageChunkKey "k2" 0, SlotVal.chunkPart "ab".data)]

/-- Witness for the amended C4 at the concrete missing-slot store. -/
theorem loadFromStorage_chunked_total_witness :
    loadFromStorage missingChunkStore "k2"
      = some (readChunks missingChunkStore "k2"
          ((some 2 : Option Nat).getD 0),
          { timestamp := 0, size := 5, chunked := true,
            chunkCount := some 2 }) :=
  loadFromStorage_chunked_total missingChunkStore "k2" _ rfl rfl

/-- Claim C4 counterexample: reading the chunked entry of
`missingChunkStore` — metadata says 2 slots and 5 bytes, slot 1 is absent —
returns `some` with the 2-byte truncated payload `"ab"` instead of
surfacing a reconstruction error. -/
theorem loadFromStorage_missingChunk_cex :
    getProperty missingChunkStore (storageChunkKey "k2" 1) = none ∧
    (loadFromStorage missingChunkStore "k2").map Prod.fst = some "ab".data ∧
    (loadFromStorage missingChunkStore "k2").map (fun r => r.2.size)
      = some 5 := by
  refine ⟨?_, ?_, ?_⟩ <;> rfl

/-- Claim C5 (amended): overwriting a key is complete only at the
single-slot level: whenever the second payload fits in one slot, only it
remains retrievable (the single-slot entry is replaced in place and the
probe reads it first).  The original claim is refuted by
`saveToStorage_overwrite_cex`: when the second payload needs chunking, the
first (single-slot) payload stays retrievable, and stale slots from an
earlier write are never removed by `saveToStorage`. -/
theorem saveToStorage_overwrite_single (now1 now2 : Nat) (s : Store)
    (path : String) (p1 p2 : List Char)
    (h2 : p2.length ≤ STORAGE_CONFIG.maxChunkSize) :
    (loadFromStorage
        (saveToStorage now2 (saveToStorage now1 s path p1).2 path p2).2
        path).map Prod.fst = some p2 := by
  rw [saveToStorage_snd_small now2 _ path p2 h2,
    loadFromStorage_of_single (getProperty_set_self _ _ _)]
  rfl

/-- Witness for the amended C5 at concrete single-slot payloads. -/
theorem saveToStorage_overwrite_single_witness :
    "xy".data.length ≤ STORAGE_CONFIG.maxChunkSize ∧
    (loadFromStorage
        (saveToStorage 1 (saveToStorage 0 [] "k" "ab".data).2 "k" "xy".data).2
        "k").map Prod.fst = some "xy".data :=
  ⟨by decide, saveToStorage_overwrite_single 0 1 [] "k" "ab".data "xy".data
    (by decide)⟩

/-- Claim C5 counterexample: writing a 2-byte payload and then an over-slot
payload under the same key leaves the **first** payload retrievable — the
second write stores chunks plus metadata but does not clear the single-slot
entry, which shadows it on read. -/
theorem saveToStorage_overwrite_cex :
    (loadFromStorage
        (saveToStorage 1 (saveToStorage 0 [] "k" "aa".data).2 "k" bigPayload).2
        "k").map Prod.fst = some "aa".data ∧
    "aa".data ≠ bigPayload := by
  constructor
  · have hst1 : (saveToStorage 0 [] "k" "aa".data).2
        = [(storageKey "k",
            SlotVal.single "aa".data
              { timestamp := 0, size := 2, chunked := false,
                chunkCount := none })] := rfl
    have hbig : ¬ bigPayload.length ≤ STORAGE_CONFIG.maxChunkSize := by
      rw [bigPayload, List.length_replicate]
      decide
    rw [hst1, saveToStorage_snd_big 1 _ "k" bigPayload hbig]
    have hstale : getProperty
        (setProperty
          (writeChunks "k"
            (preCleanStore 1
              [(storageKey "k",
                SlotVal.single "aa".data
                  { timestamp := 0, size := 2, chunked := false,
                    chunkCount := none })])
            (splitChunks bigPayload STORAGE_CONFIG.maxChunkSize) 0)
          (storageMetaKey "k")
          (SlotVal.metaRec
            { timestamp := 1, size := bigPayload.length, chunked := true,
              chunkCount :=
                some (splitChunks bigPayload STORAGE_CONFIG.maxChunkSize).length }))
        (storageKey "k")
        = some (SlotVal.single "aa".data
            { timestamp := 0, size := 2, chunked := false,
              chunkCount := none }) := by
      rw [getProperty_set_ne _ _ (storageKey_ne_metaKey "k"),
        getProperty_writeChunks_ne "k" _ _ 0 _
          fun j _ => storageKey_ne_chunkKey "k" (0 + j)]
      rfl
    rw [loadFromStorage_of_single hstale]
    rfl
  · intro hcontra
    have hlen := congrArg List.length hcontra
    rw [bigPayload, List.length_replicate,
      show ("aa".data).length = 2 from rfl] at hlen
    omega

/-- Claim C8 (amended): `saveToStorage` performs no total-byte-budget
check: within the fault-free model it reports success for every payload,
including ones exceeding `STORAGE_CONFIG.maxTotalSize`; it has no
`StorageQuotaExceeded` error path and no eviction-plus-retry — the only
cleanup is the count-triggered pass that runs before the write.  The
original claim is refuted by `saveToStorage_quota_cex`. -/
theorem saveToStorage_reports_success (now : Nat) (s : Store) (path : String)
    (data : List Char) : (saveToStorage now s path data).1.success = true :=
  saveToStorage_fst_success now s path data

/-- Claim C8 counterexample: a `Put` of a payload one byte over the
8,000,000-byte total budget reports success, not `StorageQuotaExceeded`. -/
theorem saveToStorage_quota_cex :
    STORAGE_CONFIG.maxTotalSize < (List.replicate 8000001 'a').length ∧
    (saveToStorage 0 [] "k" (List.replicate 8000001 'a')).1.success = true := by
  constructor
  · rw [List.length_replicate]
    decide
  · exact saveToStorage_fst_success 0 [] "k" _

/-!
The page-status completion tracker (`Utils.gs`: `initializePageStatusControl`,
`savePageStatusControl`, `updateItemStatusInControl`).  The control record
lives in a Drive file; load/save round-trips through JSON, so the record is
modelled directly and a save is the identity up to the `lastUpdated` stamp.
Per-item static fields (`contentId`, `sourceType`, `url`, `title`) are never
read or written by the embedded functions and are omitted.  Counters are
JS numbers and are modelled as `Int`.
-/

/-- Per-item tracking record (`tracking.mainPage` / `tracking.subBlocks[id]`). -/
structure ItemTracking where
  itemId : String
  status : String
  taskId : Option String
  processedFile : Option String
  completedAt : Option Nat
deriving DecidableEq

/-- The `tracking` object of a page-status control record. -/
structure TrackingRec where
  mainPage : ItemTracking
  subBlocks : String → Option ItemTracking
  totalItems : Int
  totalSubBlocks : Int
  completedItems : Int
  pendingItems : Int

/-- The `finalProcessing` object. -/
structure FinalProcessing where
  allCompleted : Bool
  finalSummaryCreated : Bool
  webhookSent : Bool
deriving DecidableEq

/-- A page-status control record (`page_status_<pageId>.json`). -/
structure StatusControl where
  pageId : String
  lastUpdated : Nat
  tracking : TrackingRec
  finalProcessing : FinalProcessing

/-- `savePageStatusControl` (Utils.gs 481-528): persists the record and
stamps `lastUpdated`; the Drive write itself always succeeds in the model. -/
def savePageStatusControl (now : Nat) (sc : StatusControl) : StatusControl :=
  { sc with lastUpdated := now }

/-- Result of `updateItemStatusInControl`. -/
structure UpdateResult where
  statusControl : StatusControl
  allCompleted : Bool
  readyForFinalProcessing : Bool

/-- The tail of `updateItemStatusInControl` (Utils.gs 594-617): save, then
re-derive `completedItems === totalItems` on the saved record. -/
def finishUpdate (now : Nat) (sc : StatusControl) : Option UpdateResult :=
  if sc.tracking.completedItems = sc.tracking.totalItems then
    some { statusControl := savePageStatusControl now sc,
           allCompleted := true, readyForFinalProcessing := true }
  else
    some { statusControl := savePageStatusControl now sc,
           allCompleted := false, readyForFinalProcessing := false }

/-- `updateItemStatusInControl` (Utils.gs 531-618), as a pure transformer of
the loaded control record (`loadPageStatusControl` supplies `sc`; a missing
control file yields the `none` result before this point). -/
def updateItemStatusInControl (now : Nat) (sc : StatusControl)
    (itemId contentType : String) (taskId : Option String) (status : String)
    (processedFile : Option String) : Option UpdateResult :=
  if contentType = "main_page" ∧ sc.tracking.mainPage.itemId = itemId then
    if status = "completed" ∧ sc.tracking.mainPage.status ≠ "completed" then
      finishUpdate now
        { sc with tracking :=
          { sc.tracking with
            mainPage :=
              { sc.tracking.mainPage with
                status := status
                taskId := taskId
                processedFile := processedFile
                completedAt := some now }
            completedItems := sc.tracking.completedItems + 1
            pendingItems := sc.tracking.pendingItems - 1 } }
    else
      finishUpdate now
        { sc with tracking :=
          { sc.tracking with
            mainPage :=
              { sc.tracking.mainPage with
                status := status
                taskId := taskId
                processedFile := processedFile } } }
  else if contentType = "sub_block" then
    match sc.tracking.subBlocks itemId with
    | none => none
    | some sub =>
      if status = "completed" ∧ sub.status ≠ "completed" then
        finishUpdate now
          { sc with tracking :=
            { sc.tracking with
              subBlocks := fun k =>
                if k = itemId then
                  some { sub with
                    status := status
                    taskId := taskId
                    processedFile := processedFile
                    completedAt := some now }
                else sc.tracking.subBlocks k
              completedItems := sc.tracking.completedItems + 1
              pendingItems := sc.tracking.pendingItems - 1 } }
      else
        finishUpdate now
          { sc with tracking :=
            { sc.tracking with
              subBlocks := fun k =>
                if k = itemId then
                  some { sub with
                    status := status
                    taskId := taskId
                    processedFile := processedFile }
                else sc.tracking.subBlocks k } }
  else none

theorem finishUpdate_tracking {now : Nat} {sc : StatusControl}
    {u : UpdateResult} (h : finishUpdate now sc = some u) :
    u.statusControl.tracking = sc.tracking := by
  unfold finishUpdate at h
  split at h
  · cases h; rfl
  · cases h; rfl

theorem finishUpdate_allCompleted {now : Nat} {sc : StatusControl}
    {u : UpdateResult} (h : finishUpdate now sc = some u) :
    u.allCompleted
      = decide (sc.tracking.completedItems = sc.tracking.totalItems) := by
  unfold finishUpdate at h
  split at h
  · rename_i hc
    cases h
    simp [hc]
  · rename_i hc
    cases h
    simp [hc]

theorem finishUpdate_map_allCompleted (now : Nat) (sc : StatusControl) :
    (finishUpdate now sc).map (fun u => u.allCompleted)
      = (finishUpdate now sc).map
          (fun u => decide (u.statusControl.tracking.completedItems
            = u.statusControl.tracking.totalItems)) := by
  unfold finishUpdate savePageStatusControl
  split
  · rename_i hc
    simp [hc]
  · rename_i hc
    simp [hc]

/-- Claim C1 (amended): the `allCompleted` flag returned by
`updateItemStatusInControl` is re-derived after every save as
`completedItems === totalItems` on the post-state — so it is `true` on
*every* successful call whose post-state satisfies the equality, including
repeated completed-marks of an already-completed item after all items are
done, not exactly once.  The original "exactly one call / never on two"
claim is refuted by `updateItemStatus_double_trigger_cex`. -/
theorem updateItemStatus_allCompleted_iff (now : Nat) (sc : StatusControl)
    (itemId contentType : String) (taskId : Option String) (status : String)
    (processedFile : Option String) :
    (updateItemStatusInControl now sc itemId contentType taskId status
        processedFile).map (fun u => u.allCompleted)
      = (updateItemStatusInControl now sc itemId contentType taskId status
          processedFile).map
          (fun u => decide (u.statusControl.tracking.completedItems
            = u.statusControl.tracking.totalItems)) := by
  unfold updateItemStatusInControl
  split
  · split
    · exact finishUpdate_map_allCompleted _ _
    · exact finishUpdate_map_allCompleted _ _
  · split
    · split
      · rfl
      · split
        · exact finishUpdate_map_allCompleted _ _
        · exact finishUpdate_map_allCompleted _ _
    · rfl

/-- A control record tracking a single pending item. -/
def c1Control : StatusControl :=
  { pageId := "p"
    lastUpdated := 0
    tracking :=
      { mainPage :=
          { itemId := "m"
            status := "pending"
            taskId := none
            processedFile := none
            completedAt := none }
        subBlocks := fun _ => none
        totalItems := 1
        totalSubBlocks := 0
        completedItems := 0
        pendingItems := 1 }
    finalProcessing :=
      { allCompleted := false
        finalSummaryCreated := false
        webhookSent := false } }

/-- Claim C1 counterexample: with one tracked item, the completing call
returns `allCompleted = true`, and a repeated completed-mark of the same,
already-completed item returns `allCompleted = true` a second time — the
flag is true on two `MarkCompleted` calls. -/
theorem updateItemStatus_double_trigger_cex :
    ((updateItemStatusInControl 1 c1Control "m" "main_page" (some "t")
        "completed" none).map (fun u => u.allCompleted) = some true) ∧
    (((updateItemStatusInControl 1 c1Control "m" "main_page" (some "t")
        "completed" none).bind fun u =>
          updateItemStatusInControl 2 u.statusControl "m" "main_page"
            (some "t") "completed" none).map (fun u => u.allCompleted)
      = some true) := by
  exact ⟨rfl, rfl⟩

/-- Claim C2: marking an already-`completed` item as completed again leaves
`tracking.completedItems` and `tracking.pendingItems` unchanged — the
counters are only advanced when the prior status differs from
`completed`. -/
theorem updateItemStatus_completed_idempotent (now : Nat) (sc : StatusControl)
    (itemId contentType : String) (taskId : Option String)
    (processedFile : Option String) (u : UpdateResult)
    (hdone : (contentType = "main_page" ∧ sc.tracking.mainPage.itemId = itemId
        ∧ sc.tracking.mainPage.status = "completed")
      ∨ (contentType = "sub_block" ∧
          ∃ t, sc.tracking.subBlocks itemId = some t ∧ t.status = "completed"))
    (h : updateItemStatusInControl now sc itemId contentType taskId
        "completed" processedFile = some u) :
    u.statusControl.tracking.completedItems = sc.tracking.completedItems ∧
    u.statusControl.tracking.pendingItems = sc.tracking.pendingItems := by
  rcases hdone with ⟨hct, hid, hst⟩ | ⟨hct, t, hsubt, hst⟩
  · unfold updateItemStatusInControl at h
    rw [if_pos ⟨hct, hid⟩] at h
    rw [if_neg (fun hcond => hcond.2 hst)] at h
    rw [finishUpdate_tracking h]
    exact ⟨rfl, rfl⟩
  · unfold updateItemStatusInControl at h
    rw [if_neg (fun hcond => by
      rw [hct] at hcond
      exact absurd hcond.1 (by decide))] at h
    rw [if_pos hct] at h
    simp only [hsubt] at h
    rw [if_neg (fun hcond => hcond.2 hst)] at h
    rw [finishUpdate_tracking h]
    exact ⟨rfl, rfl⟩

/-- A control record whose single item is already completed. -/
def c2Control : StatusControl :=
  { pageId := "p"
    lastUpdated := 3
    tracking :=
      { mainPage :=
          { itemId := "m"
            status := "completed"
            taskId := some "t"
            processedFile := none
            completedAt := some 1 }
        subBlocks := fun _ => none
        totalItems := 1
        totalSubBlocks := 0
        completedItems := 1
        pendingItems := 0 }
    finalProcessing :=
      { allCompleted := false
        finalSummaryCreated := false
        webhookSent := false } }

/-- The result of re-marking the already-completed item of `c2Control`. -/
def c2After : UpdateResult :=
  { statusControl :=
      { pageId := "p"
        lastUpdated := 5
        tracking :=
          { mainPage :=
              { itemId := "m"
                status := "completed"
                taskId := some "t2"
                processedFile := none
                completedAt := some 1 }
            subBlocks := fun _ => none
            totalItems := 1
            totalSubBlocks := 0
            completedItems := 1
            pendingItems := 0 }
        finalProcessing :=
          { allCompleted := false
            finalSummaryCreated := false
            webhookSent := false } }
    allCompleted := true
    readyForFinalProcessing := true }

/-- Witness for C2 at the concrete already-completed control record. -/
theorem updateItemStatus_completed_idempotent_witness :
    (("main_page" = "main_page"
        ∧ c2Control.tracking.mainPage.itemId = "m"
        ∧ c2Control.tracking.mainPage.status = "completed")
      ∨ ("main_page" = "sub_block" ∧
          ∃ t, c2Control.tracking.subBlocks "m" = some t
            ∧ t.status = "completed")) ∧
    updateItemStatusInControl 5 c2Control "m" "main_page" (some "t2")
        "completed" none = some c2After ∧
    (c2After.statusControl.tracking.completedItems
        = c2Control.tracking.completedItems ∧
      c2After.statusControl.tracking.pendingItems
        = c2Control.tracking.pendingItems) :=
  ⟨Or.inl ⟨rfl, rfl, rfl⟩, rfl,
    updateItemStatus_completed_idempotent 5 c2Control "m" "main_page"
      (some "t2") none c2After (Or.inl ⟨rfl, rfl, rfl⟩) rfl⟩

/-!
The Zapier LLM-result callback path (`src/unnamed/part_002`).  The file
declares `doPost_HandleZapierLLMResult` twice; in Apps Script the later
declaration (lines 2390-2507) overrides the earlier one (lines 1536-1831)
at load time.  Both are embedded: `doPost_HandleZapierLLMResult_decl1` is
the earlier, shadowed declaration, `doPost_HandleZapierLLMResult` the
effective one.  Only Properties-Service effects and the response are
modelled; the Drive-file writes, the page-status-control update (a Drive
file, not a script property) and the outbound webhook touch no property
key.
-/

/-- A parsed Zapier callback request; `taskId = ""` models an absent or
empty (falsy) task id, the other extraction fields are optional. -/
structure ZapierCallback where
  taskId : String
  result : List Char
  pageId : Option String
  itemId : Option String
  contentType : Option String
  contentId : Option String

/-- `findPageIdByTaskId` (lines 2087-2118): scan the property snapshot for a
`WORKFLOW_STATE_` key whose parsed state carries the matching `taskId`.
A value that fails `JSON.parse` (a raw chunk string) is logged and skipped;
a parseable value without a `taskId` field never equals a non-empty task id
and is skipped the same way. -/
def findPageIdByTaskId : Store → String → Option String
  | [], _ => none
  | (k, v) :: rest, taskId =>
    if jsStartsWith k "WORKFLOW_STATE_" then
      match v with
      | SlotVal.wfState tid =>
        if tid = taskId then some (k.replace "WORKFLOW_STATE_" "")
        else findPageIdByTaskId rest taskId
      | _ => findPageIdByTaskId rest taskId
    else findPageIdByTaskId rest taskId

/-- Outcome of the earlier (shadowed) callback handler declaration. -/
inductive HandlerStep where
  | errorNoTaskId
  | resumedWorkflow (pageId : String)
  | savedForPolling (status message : String) (props : Store)

/-- The earlier `doPost_HandleZapierLLMResult` declaration (lines
1536-1831): validate `taskId` (a falsy one throws, caught as an error
response); on a known task id, resume the workflow via `processNotionPage`
(delegated — that path is not modelled and no theorem evaluates it); on an
unknown task id, stash the result under `ZAPIER_RESULT_<taskId>` for the
legacy polling path and answer `status: success`,
`message: Result saved for polling`. -/
def doPost_HandleZapierLLMResult_decl1 (props : Store) (req : ZapierCallback) :
    HandlerStep :=
  if req.taskId = "" then HandlerStep.errorNoTaskId
  else
    match findPageIdByTaskId props req.taskId with
    | some pid => HandlerStep.resumedWorkflow pid
    | none =>
      HandlerStep.savedForPolling "success" "Result saved for polling"
        (setProperty props ("ZAPIER_RESULT_" ++ req.taskId)
          (SlotVal.zapRes req.result))

/-- The effective `doPost_HandleZapierLLMResult` declaration (lines
2390-2507): it routes purely by the request's own `pageId` /
`contentType` / `itemId` fields, never consults the workflow states, and
never writes a script property — its effects are Drive writes, the
page-status-control update and the final webhook.  Returned here: the
response's `status` string and the (unchanged) property store.  `scs` is
the page-status-control lookup backing `updateItemStatusInControl`. -/
def doPost_HandleZapierLLMResult (now : Nat) (props : Store)
    (scs : String → Option StatusControl) (req : ZapierCallback) :
    String × Store :=
  match req.pageId.bind scs with
  | some sc =>
    match updateItemStatusInControl now sc (req.itemId.getD "")
        (req.contentType.getD "") (some req.taskId) "completed"
        (some ("processed_" ++ req.contentId.getD "undefined" ++ ".md")) with
    | some u =>
      if u.allCompleted && u.readyForFinalProcessing then
        ("completed_all", props)
      else ("completed_item", props)
    | none => ("completed_item", props)
  | none => ("completed_item", props)

/-- Claim C9 (amended): on a callback whose `taskId` matches no stored
workflow state, the cited handler declaration answers a 200-style success
whose message is `Result saved for polling` (stashing the result under a
polling key) — it does **not** indicate "not found"; no `WORKFLOW_STATE_`
property changes.  The effective (overriding) declaration leaves the
property store untouched entirely.  The "response indicates not found"
part of the original claim is refuted by
`zapierCallback_unknownTask_cex`. -/
theorem zapierCallback_unknownTask (now : Nat) (props : Store)
    (scs : String → Option StatusControl) (req : ZapierCallback)
    (ht : req.taskId ≠ "")
    (hfind : findPageIdByTaskId props req.taskId = none) :
    (doPost_HandleZapierLLMResult_decl1 props req
      = HandlerStep.savedForPolling "success" "Result saved for polling"
          (setProperty props ("ZAPIER_RESULT_" ++ req.taskId)
            (SlotVal.zapRes req.result))) ∧
    (∀ key, jsStartsWith key "WORKFLOW_STATE_" = true →
      getProperty
        (setProperty props ("ZAPIER_RESULT_" ++ req.taskId)
          (SlotVal.zapRes req.result)) key
        = getProperty props key) ∧
    (doPost_HandleZapierLLMResult now props scs req).2 = props := by
  refine ⟨?_, ?_, ?_⟩
  · unfold doPost_HandleZapierLLMResult_decl1
    rw [if_neg ht, hfind]
  · intro key hk
    apply getProperty_set_ne
    intro heq
    rw [heq] at hk
    unfold jsStartsWith at hk
    rw [String.data_append,
      show ("WORKFLOW_STATE_" : String).data
        = 'W' :: "ORKFLOW_STATE_".data from rfl,
      show ("ZAPIER_RESULT_" : String).data
        = 'Z' :: "APIER_RESULT_".data from rfl] at hk
    simp [List.isPrefixOf] at hk
  · unfold doPost_HandleZapierLLMResult
    split
    · split
      · split <;> rfl
      · rfl
    · rfl

/-- A property store with one workflow state, for an unrelated task id. -/
def cexCallbackProps : Store :=
  [("WORKFLOW_STATE_p1", SlotVal.wfState "otherTask")]

/-- A callback carrying an unknown task id and no routing fields. -/
def cexCallbackReq : ZapierCallback :=
  { taskId := "T99"
    result := "summary text".data
    pageId := none
    itemId := none
    contentType := none
    contentId := none }

/-- Witness for the amended C9 at concrete inputs. -/
theorem zapierCallback_unknownTask_witness :
    cexCallbackReq.taskId ≠ "" ∧
    findPageIdByTaskId cexCallbackProps cexCallbackReq.taskId = none ∧
    (doPost_HandleZapierLLMResult_decl1 cexCallbackProps cexCallbackReq
      = HandlerStep.savedForPolling "success" "Result saved for polling"
          (setProperty cexCallbackProps
            ("ZAPIER_RESULT_" ++ cexCallbackReq.taskId)
            (SlotVal.zapRes cexCallbackReq.result))) ∧
    (doPost_HandleZapierLLMResult 0 cexCallbackProps (fun _ => none)
        cexCallbackReq).2 = cexCallbackProps :=
  ⟨by decide, rfl,
    (zapierCallback_unknownTask 0 cexCallbackProps (fun _ => none)
      cexCallbackReq (by decide) rfl).1,
    (zapierCallback_unknownTask 0 cexCallbackProps (fun _ => none)
      cexCallbackReq (by decide) rfl).2.2⟩

/-- Claim C9 counterexample: at the concrete unknown-task callback, the
cited handler's structured response has `status = success` and
`message = Result saved for polling` — a message different from any
"not found" indication (the claim's wording); the "no WorkflowState
mutated" half of the claim does hold and is part of the amended theorem. -/
theorem zapierCallback_unknownTask_cex :
    (match doPost_HandleZapierLLMResult_decl1 cexCallbackProps cexCallbackReq with
     | HandlerStep.savedForPolling st msg _ =>
        st = "success" ∧ msg = "Result saved for polling"
          ∧ msg ≠ "not found"
     | _ => False) :=
  ⟨rfl, rfl, by decide⟩

/-!
`combineChunkResults` (`NotionAPI.gs` lines 1592-1642): the per-chunk
summary loop and the joined combination.  The surrounding final-summary
wrapper, Drive save and progress updates (lines 1626 onward) have no
bearing on the combination rule and are out of the modelled scope.
-/

/-- A `chunking.chunkResults[chunkId]` record (only the fields the
combination loop reads; a JS `null`/`undefined`/empty `result` is uniformly
modelled as `""`, all being falsy in the `chunkResult.result` test). -/
structure ChunkResultRec where
  index : Nat
  result : String
deriving DecidableEq

/-- The chunking sub-state read by the combination loop. -/
structure ChunkState where
  totalChunks : Nat
  chunkResults : String → Option ChunkResultRec

/-- `` `${pageId}_chunk_${i}` ``. -/
def chunkIdFor (pageId : String) (i : Nat) : String :=
  pageId ++ "_chunk_" ++ Nat.repr i

/-- `` `## Chunk ${i + 1} of ${totalChunks}` ``. -/
def chunkHeader (n i : Nat) : String :=
  "## Chunk " ++ Nat.repr (i + 1) ++ " of " ++ Nat.repr n

/-- One entry pushed by the loop body (lines 1600-1613). -/
def chunkEntry (pageId : String) (ch : ChunkState) (i : Nat) : String :=
  chunkHeader ch.totalChunks i ++ "\n\n" ++
    (match ch.chunkResults (chunkIdFor pageId i) with
     | some r =>
       if r.result ≠ "" then r.result
       else "[Chunk processing failed or incomplete]"
     | none => "[Chunk processing failed or incomplete]")

/-- The `for (let i = 0; i < chunking.totalChunks; i++)` collection loop. -/
def chunkSummariesAux (pageId : String) (ch : ChunkState) : Nat → Nat → List String
  | 0, _ => []
  | k + 1, i => chunkEntry pageId ch i :: chunkSummariesAux pageId ch k (i + 1)

/-- The `chunkSummaries` array of `combineChunkResults`. -/
def chunkSummaries (pageId : String) (ch : ChunkState) : List String :=
  chunkSummariesAux pageId ch ch.totalChunks 0

/-- `chunkSummaries.join('\n\n---\n\n')`. -/
def combinedSummaries (pageId : String) (ch : ChunkState) : String :=
  String.intercalate "\n\n---\n\n" (chunkSummaries pageId ch)

theorem chunkSummariesAux_length (pageId : String) (ch : ChunkState) :
    ∀ k i, (chunkSummariesAux pageId ch k i).length = k := by
  intro k
  induction k with
  | zero => intro i; rfl
  | succ n ih =>
    intro i
    simp only [chunkSummariesAux, List.length_cons, ih]

theorem chunkSummariesAux_get (pageId : String) (ch : ChunkState) :
    ∀ k i j, j < k →
      (chunkSummariesAux pageId ch k i)[j]?
        = some (chunkEntry pageId ch (i + j)) := by
  intro k
  induction k with
  | zero => intro i j hj; omega
  | succ n ih =>
    intro i j hj
    cases j with
    | zero =>
      simp only [chunkSummariesAux, List.getElem?_cons_zero]
      rfl
    | succ jj =>
      simp only [chunkSummariesAux, List.getElem?_cons_succ]
      rw [ih (i + 1) jj (by omega),
        show i + (jj + 1) = i + 1 + jj from by omega]

/-- Claim C10 (amended): the combination never fails — it always yields one
entry per chunk index, in index order; every entry starts with its
`## Chunk i of N` header (for every `N`, including `N = 1`); and a chunk
index with no recorded (or empty) result is rendered as the fixed
placeholder `[Chunk processing failed or incomplete]` beneath its numbered
header.  The placeholder text itself carries no index — the original
claim's literal `[Chunk i failed or incomplete]` does not occur (see
`combineChunkResults_placeholder_cex`). -/
theorem combineChunkResults_entries (pageId : String) (ch : ChunkState) :
    (chunkSummaries pageId ch).length = ch.totalChunks ∧
    (∀ i, i < ch.totalChunks →
      (chunkSummaries pageId ch)[i]? = some (chunkEntry pageId ch i) ∧
      jsStartsWith (chunkEntry pageId ch i)
        (chunkHeader ch.totalChunks i) = true ∧
      (ch.chunkResults (chunkIdFor pageId i) = none →
        chunkEntry pageId ch i
          = chunkHeader ch.totalChunks i ++ "\n\n"
            ++ "[Chunk processing failed or incomplete]")) := by
  constructor
  · exact chunkSummariesAux_length pageId ch ch.totalChunks 0
  · intro i hi
    refine ⟨?_, ?_, ?_⟩
    · have := chunkSummariesAux_get pageId ch ch.totalChunks 0 i hi
      rwa [show (0 : Nat) + i = i from by omega] at this
    · unfold jsStartsWith chunkEntry
      rw [String.data_append, String.data_append, List.append_assoc]
      rw [show ((chunkHeader ch.totalChunks i).data.isPrefixOf
          ((chunkHeader ch.totalChunks i).data ++
            (("\n\n" : String).data ++ _)) = true)
        = ((chunkHeader ch.totalChunks i).data <+:
            ((chunkHeader ch.totalChunks i).data ++
              (("\n\n" : String).data ++ _))) from by
          rw [eq_iff_iff]
          exact List.isPrefixOf_iff_prefix]
      exact List.prefix_append _ _
    · intro hmiss
      unfold chunkEntry
      rw [hmiss]

/-- A two-chunk state with chunk index 1 missing its result. -/
def cexChunkState : ChunkState :=
  { totalChunks := 2
    chunkResults := fun k =>
      if k = "p_chunk_0" then some { index := 0, result := "R0" } else none }

/-- Claim C10 counterexample: with chunk 2 of 2 missing, the combined
output renders the fixed placeholder `[Chunk processing failed or
incomplete]` under the `## Chunk 2 of 2` header; the claim's literal
indexed placeholder `[Chunk 2 failed or incomplete]` occurs nowhere in the
combined output. -/
theorem combineChunkResults_placeholder_cex :
    combinedSummaries "p" cexChunkState
      = "## Chunk 1 of 2\n\nR0\n\n---\n\n## Chunk 2 of 2\n\n[Chunk processing failed or incomplete]" ∧
    strIncludes (combinedSummaries "p" cexChunkState)
      "[Chunk 2 failed or incomplete]" = false := by
  constructor
  · rfl
  · decide

/-- Witness for the amended C10 at the concrete two-chunk state. -/
theorem combineChunkResults_entries_witness :
    (chunkSummaries "p" cexChunkState).length = 2 ∧
    ((chunkSummaries "p" cexChunkState)[1]?
        = some (chunkEntry "p" cexChunkState 1) ∧
      jsStartsWith (chunkEntry "p" cexChunkState 1)
        (chunkHeader 2 1) = true ∧
      (cexChunkState.chunkResults (chunkIdFor "p" 1) = none →
        chunkEntry "p" cexChunkState 1
          = chunkHeader 2 1 ++ "\n\n"
            ++ "[Chunk processing failed or incomplete]")) :=
  ⟨(combineChunkResults_entries "p" cexChunkState).1,
    (combineChunkResults_entries "p" cexChunkState).2 1 (by decide)⟩

end ZapierCodes
